import Mathlib

/-!
Verification of the declarative task-orchestration engine ("Tasking") of this
repository, against its specification.  The engine's own translation units are
not present in the source tree; only its test suite (tst_tasking.cpp) is.
Following the spec (sections 3-5), we build an executable model of the
scheduler: groups of asynchronous tasks executed sequentially, in parallel, or
with a parallelism limit, combined under a workflow policy, with lifecycle
hooks, a barrier primitive and tree-scoped storage.  Every behaviour of the
model is cross-checked against the expected logs recorded in the test suite.
-/

namespace Tasking

/-- Handler kinds recorded in the test log (enum `Handler` in tst_tasking.cpp). -/
inductive Handler where
  | Setup
  | Done
  | Error
  | GroupSetup
  | GroupDone
  | GroupError
  | Sync
  | BarrierAdvance
deriving DecidableEq, Repr

/-- A log is a list of (task id, handler) pairs, as in `using Log = QList<QPair<int, Handler>>`. -/
abbrev Log := List (Nat × Handler)

/-- Modelled from the spec: `SetupResult / TaskAction` (spec section 3), the verdict of a
setup handler: proceed normally, or short-circuit the branch with success or failure.
The enum itself is declared in the missing tasking.h. -/
inductive TaskAction where
  | Continue
  | StopWithDone
  | StopWithError
deriving DecidableEq, Repr

/-- Modelled from the spec: the `WorkflowPolicy` enum (spec section 3), declared in the
missing tasking.h; how children's outcomes combine into the group's own result. -/
inductive WorkflowPolicy where
  | StopOnError
  | ContinueOnError
  | StopOnDone
  | ContinueOnDone
  | StopOnFinished
  | Optional
deriving DecidableEq, Repr

/-- Modelled from the spec: the execution mode of a group (spec section 3):
`Sequential`, `Parallel`, `ParallelLimit(n)`. -/
inductive ExecMode where
  | Sequential
  | Parallel
  | ParallelLimit (n : Nat)
deriving DecidableEq, Repr

/-- The parallelism limit of a mode: sequential is limit 1, unbounded parallel is
encoded as limit 0 (never blocks), `ParallelLimit n` is limit `n`. -/
def ExecMode.limit : ExecMode → Nat
  | .Sequential => 1
  | .Parallel => 0
  | .ParallelLimit n => n

/-- Modelled from the spec: a leaf asynchronous task (spec section 3 `Task`), as built by
`createTask` in the test suite: a setup handler that logs `Setup` and returns a
`TaskAction` verdict, a success/failure result reported on resolution, and an
event-loop delay (the `milliseconds` task object) before the done signal arrives. -/
structure ATask where
  id : Nat
  action : TaskAction
  success : Bool
  dur : Nat
deriving DecidableEq, Repr

/-- The handler a task's resolution invokes: `Done` on success, `Error` on failure. -/
def res (t : ATask) : Handler := if t.success then Handler.Done else Handler.Error

/-- Synthetic-error log entries produced when the still-running tasks are canceled
(spec: cancelling a live task delivers a synthetic error resolution), in start order. -/
def cancelLog (running : List (Nat × ATask)) : Log :=
  running.map (fun pr => (pr.2.id, Handler.Error))

/-- Whether a new child may be started: limit 0 means unbounded parallelism,
otherwise the running count must stay strictly below the limit. -/
def canStart (limit : Nat) (runningCount : Nat) : Bool :=
  limit == 0 || runningCount < limit

/-- Modelled from the spec: which child resolutions trigger early group resolution
(spec section 4.4 step 4, implemented in the missing tasking.cpp):
`StopOnError` stops on a failure, `StopOnDone` stops on a success,
`StopOnFinished` stops on any resolution; the continue-style policies and
`Optional` never stop early. -/
def stopsGroup : WorkflowPolicy → Bool → Bool
  | .StopOnError, false => true
  | .StopOnDone, true => true
  | .StopOnFinished, _ => true
  | _, _ => false

/-- The group outcome when the policy triggered early resolution on a child that
resolved with `childSuccess`. -/
def stopOutcome : WorkflowPolicy → Bool → Bool
  | .StopOnError, _ => false
  | .StopOnDone, _ => true
  | _, s => s

/-- Modelled from the spec: the group outcome once every child has resolved without
triggering an early stop (spec section 4.4 step 4). `anyDone`/`anyError` record
whether some child succeeded/failed.  (`StopOnFinished` can only reach this point
with no recorded resolution at all, in which case the group reports success.) -/
def finalOutcome (p : WorkflowPolicy) (anyDone anyError : Bool) : Bool :=
  match p with
  | .StopOnError => !anyError
  | .ContinueOnError => !anyError
  | .StopOnDone => anyDone
  | .ContinueOnDone => anyDone
  | .StopOnFinished => true
  | .Optional => true

/-- The result of running a group of children: the accumulated log, the group's
success bit, the progress credited (one per leaf task, resolved or skipped), and
the trace of running-children counts observed after every scheduler transition. -/
structure RunResult where
  log : Log
  ok : Bool
  progress : Nat
  counts : List Nat
deriving DecidableEq, Repr

/-- Pop the leftmost entry with minimal finish time from the running list (the event
loop delivers the earliest-due done signal first; FIFO among equal times). -/
def popMin : List (Nat × ATask) → Option ((Nat × ATask) × List (Nat × ATask))
  | [] => none
  | x :: xs =>
    match popMin xs with
    | none => some (x, [])
    | some (m, rest) => if x.1 ≤ m.1 then some (x, xs) else some (m, x :: rest)

theorem popMin_eq_none : ∀ {l : List (Nat × ATask)}, popMin l = none → l = [] := by
  intro l h
  cases l with
  | nil => rfl
  | cons x xs =>
    simp only [popMin] at h
    split at h
    · simp at h
    · split at h <;> simp at h

theorem popMin_length : ∀ {l : List (Nat × ATask)} {m rest},
    popMin l = some (m, rest) → rest.length + 1 = l.length := by
  intro l
  induction l with
  | nil => intro m rest h; simp [popMin] at h
  | cons x xs ih =>
    intro m rest h
    simp only [popMin] at h
    split at h
    · rename_i heq
      have hxs := popMin_eq_none heq
      simp only [Option.some.injEq, Prod.mk.injEq] at h
      subst hxs
      obtain ⟨-, h2⟩ := h
      subst h2
      rfl
    · rename_i m' rest' heq
      split at h
      · simp only [Option.some.injEq, Prod.mk.injEq] at h
        obtain ⟨-, h2⟩ := h
        subst h2
        rfl
      · simp only [Option.some.injEq, Prod.mk.injEq] at h
        obtain ⟨-, h2⟩ := h
        subst h2
        have := ih heq
        simp only [List.length_cons] at this ⊢
        omega

/-- Modelled from the spec: the scheduler's per-group driving loop (spec section 4.4,
implemented in the missing tasking.cpp), for a flat group of leaf tasks.
`queue` holds the not-yet-started children in declaration order; `running` holds the
started children with the absolute time at which their done signal is due, in start
order (the event loop delivers the earliest due signal first, FIFO among ties).
While a queued child remains and the parallelism limit permits, the next child is
started: its setup handler logs `Setup` and returns its `TaskAction` verdict; a
`Continue` verdict leaves the task running until its done signal, a `StopWith...`
verdict resolves the child on the spot and is fed to the workflow policy.
Otherwise the earliest due done signal is processed: the child logs `Done`/`Error`,
progress advances, and the policy decides whether the group resolves early, in
which case still-running children are canceled (each logging a synthetic `Error`)
and queued children are skipped (credited to progress without logging).
`counts` records the running-children count after every transition. -/
def sched (limit : Nat) (p : WorkflowPolicy) (now : Nat) (queue : List ATask)
    (running : List (Nat × ATask)) (log : Log) (prog : Nat) (counts : List Nat)
    (anyDone anyError : Bool) : RunResult :=
  match queue with
  | t :: qs =>
    if canStart limit running.length then
      match t.action with
      | .Continue =>
          sched limit p now qs (running ++ [(now + t.dur, t)])
            (log ++ [(t.id, Handler.Setup)]) prog (counts ++ [running.length + 1])
            anyDone anyError
      | .StopWithDone =>
          if stopsGroup p true then
            ⟨log ++ [(t.id, Handler.Setup)] ++ cancelLog running, stopOutcome p true,
              prog + 1 + running.length + qs.length, counts⟩
          else
            sched limit p now qs running (log ++ [(t.id, Handler.Setup)]) (prog + 1)
              counts true anyError
      | .StopWithError =>
          if stopsGroup p false then
            ⟨log ++ [(t.id, Handler.Setup)] ++ cancelLog running, stopOutcome p false,
              prog + 1 + running.length + qs.length, counts⟩
          else
            sched limit p now qs running (log ++ [(t.id, Handler.Setup)]) (prog + 1)
              counts anyDone true
    else
      match h : popMin running with
      | none => ⟨log, finalOutcome p anyDone anyError, prog, counts⟩
      | some ((tf, u), rest) =>
          if stopsGroup p u.success then
            ⟨log ++ [(u.id, res u)] ++ cancelLog rest, stopOutcome p u.success,
              prog + 1 + rest.length + (t :: qs).length, counts ++ [rest.length]⟩
          else
            sched limit p tf (t :: qs) rest (log ++ [(u.id, res u)]) (prog + 1)
              (counts ++ [rest.length]) (anyDone || u.success) (anyError || !u.success)
  | [] =>
      match h : popMin running with
      | none => ⟨log, finalOutcome p anyDone anyError, prog, counts⟩
      | some ((tf, u), rest) =>
          if stopsGroup p u.success then
            ⟨log ++ [(u.id, res u)] ++ cancelLog rest, stopOutcome p u.success,
              prog + 1 + rest.length, counts ++ [rest.length]⟩
          else
            sched limit p tf [] rest (log ++ [(u.id, res u)]) (prog + 1)
              (counts ++ [rest.length]) (anyDone || u.success) (anyError || !u.success)
termination_by 2 * queue.length + running.length
decreasing_by
  · simp only [List.length_cons, List.length_append, List.length_nil]
    omega
  · simp only [List.length_cons]
    omega
  · simp only [List.length_cons]
    omega
  · have := popMin_length h
    simp only [List.length_cons]
    omega
  · have := popMin_length h
    simp only [List.length_nil]
    omega

/-- A flat group declaration: execution mode, workflow policy, optional group-done and
group-error hook ids, and the children in declaration order (spec section 3 `Group`). -/
structure FlatGroup where
  mode : ExecMode
  policy : WorkflowPolicy
  doneId : Option Nat
  errorId : Option Nat
  children : List ATask
deriving DecidableEq, Repr

/-- The log entries produced by the group's own lifecycle hooks on resolution:
exactly one of group-done or group-error fires, matching the outcome (spec 4.4 step 5). -/
def hookLog (doneId errorId : Option Nat) (ok : Bool) : Log :=
  if ok then
    match doneId with
    | some i => [(i, Handler.GroupDone)]
    | none => []
  else
    match errorId with
    | some i => [(i, Handler.GroupError)]
    | none => []

/-- Modelled from the spec: running one flat group to completion (the missing
tasking.cpp's group driving code).  A group with no children resolves as `Done`
immediately, for every policy — as fixed by the `Empty...` rows of the test suite. -/
def runFlatGroup (g : FlatGroup) : RunResult :=
  if g.children.isEmpty then
    ⟨hookLog g.doneId g.errorId true, true, 0, []⟩
  else
    let r := sched g.mode.limit g.policy 0 g.children [] [] 0 [] false false
    ⟨r.log ++ hookLog g.doneId g.errorId r.ok, r.ok, r.progress, r.counts⟩

/-- The sequential trace of a list of tasks that all run and resolve:
setup then done/error for each, in declaration order. -/
def seqTrace (ts : List ATask) : Log :=
  ts.flatMap (fun t => [(t.id, Handler.Setup), (t.id, res t)])

/-- The ids of the `Setup` entries of a log, in order. -/
def setupsOf (l : Log) : List Nat :=
  l.filterMap (fun e => match e.2 with | Handler.Setup => some e.1 | _ => none)

theorem canStart_zero_running : canStart limit 0 = true := by
  unfold canStart
  cases limit <;> simp

theorem sched_fin (limit : Nat) (p : WorkflowPolicy) (now : Nat) (log : Log) (prog : Nat)
    (counts : List Nat) (aD aE : Bool) :
    sched limit p now [] [] log prog counts aD aE = ⟨log, finalOutcome p aD aE, prog, counts⟩ := by
  unfold sched
  simp [popMin]

theorem sched_start (limit : Nat) (p : WorkflowPolicy) (now : Nat) (t : ATask)
    (qs : List ATask) (running : List (Nat × ATask)) (log : Log) (prog : Nat)
    (counts : List Nat) (aD aE : Bool)
    (hc : canStart limit running.length = true) (ha : t.action = .Continue) :
    sched limit p now (t :: qs) running log prog counts aD aE =
      sched limit p now qs (running ++ [(now + t.dur, t)])
        (log ++ [(t.id, Handler.Setup)]) prog (counts ++ [running.length + 1]) aD aE := by
  conv_lhs => unfold sched
  simp [hc, ha]

theorem sched_start_stopDone (limit : Nat) (p : WorkflowPolicy) (now : Nat) (t : ATask)
    (qs : List ATask) (running : List (Nat × ATask)) (log : Log) (prog : Nat)
    (counts : List Nat) (aD aE : Bool)
    (hc : canStart limit running.length = true) (ha : t.action = .StopWithDone) :
    sched limit p now (t :: qs) running log prog counts aD aE =
      if stopsGroup p true then
        ⟨log ++ [(t.id, Handler.Setup)] ++ cancelLog running, stopOutcome p true,
          prog + 1 + running.length + qs.length, counts⟩
      else
        sched limit p now qs running (log ++ [(t.id, Handler.Setup)]) (prog + 1)
          counts true aE := by
  conv_lhs => unfold sched
  simp [hc, ha]

theorem sched_start_stopError (limit : Nat) (p : WorkflowPolicy) (now : Nat) (t : ATask)
    (qs : List ATask) (running : List (Nat × ATask)) (log : Log) (prog : Nat)
    (counts : List Nat) (aD aE : Bool)
    (hc : canStart limit running.length = true) (ha : t.action = .StopWithError) :
    sched limit p now (t :: qs) running log prog counts aD aE =
      if stopsGroup p false then
        ⟨log ++ [(t.id, Handler.Setup)] ++ cancelLog running, stopOutcome p false,
          prog + 1 + running.length + qs.length, counts⟩
      else
        sched limit p now qs running (log ++ [(t.id, Handler.Setup)]) (prog + 1)
          counts aD true := by
  conv_lhs => unfold sched
  simp [hc, ha]

theorem sched_pop_cons (limit : Nat) (p : WorkflowPolicy) (now : Nat) (t : ATask)
    (qs : List ATask) (running : List (Nat × ATask)) (log : Log) (prog : Nat)
    (counts : List Nat) (aD aE : Bool) (tf : Nat) (u : ATask) (rest : List (Nat × ATask))
    (hc : canStart limit running.length = false)
    (hp : popMin running = some ((tf, u), rest)) :
    sched limit p now (t :: qs) running log prog counts aD aE =
      if stopsGroup p u.success then
        ⟨log ++ [(u.id, res u)] ++ cancelLog rest, stopOutcome p u.success,
          prog + 1 + rest.length + (t :: qs).length, counts ++ [rest.length]⟩
      else
        sched limit p tf (t :: qs) rest (log ++ [(u.id, res u)]) (prog + 1)
          (counts ++ [rest.length]) (aD || u.success) (aE || !u.success) := by
  conv_lhs => unfold sched
  rw [if_neg (by simp [hc])]
  split
  · rename_i heq
    rw [hp] at heq
    cases heq
  · rename_i tf' u' rest' heq
    rw [hp] at heq
    simp only [Option.some.injEq, Prod.mk.injEq] at heq
    obtain ⟨⟨h1, h2⟩, h3⟩ := heq
    subst h1
    subst h2
    subst h3
    rfl

theorem sched_pop_nil (limit : Nat) (p : WorkflowPolicy) (now : Nat)
    (running : List (Nat × ATask)) (log : Log) (prog : Nat)
    (counts : List Nat) (aD aE : Bool) (tf : Nat) (u : ATask) (rest : List (Nat × ATask))
    (hp : popMin running = some ((tf, u), rest)) :
    sched limit p now [] running log prog counts aD aE =
      if stopsGroup p u.success then
        ⟨log ++ [(u.id, res u)] ++ cancelLog rest, stopOutcome p u.success,
          prog + 1 + rest.length, counts ++ [rest.length]⟩
      else
        sched limit p tf [] rest (log ++ [(u.id, res u)]) (prog + 1)
          (counts ++ [rest.length]) (aD || u.success) (aE || !u.success) := by
  conv_lhs => unfold sched
  split
  · rename_i heq
    rw [hp] at heq
    cases heq
  · rename_i tf' u' rest' heq
    rw [hp] at heq
    simp only [Option.some.injEq, Prod.mk.injEq] at heq
    obtain ⟨⟨h1, h2⟩, h3⟩ := heq
    subst h1
    subst h2
    subst h3
    rfl

/-- One full sequential step: with parallelism limit 1 and nothing running, the next
child's setup fires, its done signal is processed immediately after, and the policy
either resolves the group or the loop moves on to the remaining children. -/
theorem sched_seq_cont (p : WorkflowPolicy) (now : Nat) (t : ATask) (qs : List ATask)
    (log : Log) (prog : Nat) (counts : List Nat) (aD aE : Bool)
    (ha : t.action = .Continue) :
    sched 1 p now (t :: qs) [] log prog counts aD aE =
      if stopsGroup p t.success then
        ⟨log ++ [(t.id, Handler.Setup), (t.id, res t)], stopOutcome p t.success,
          prog + 1 + qs.length, counts ++ [1, 0]⟩
      else
        sched 1 p (now + t.dur) qs [] (log ++ [(t.id, Handler.Setup), (t.id, res t)])
          (prog + 1) (counts ++ [1, 0]) (aD || t.success) (aE || !t.success) := by
  rw [sched_start 1 p now t qs [] log prog counts aD aE (by decide) ha]
  simp only [List.nil_append, List.length_nil, Nat.zero_add]
  cases qs with
  | nil =>
    rw [sched_pop_nil 1 p now [(now + t.dur, t)] (log ++ [(t.id, Handler.Setup)]) prog
      (counts ++ [1]) aD aE (now + t.dur) t [] rfl]
    split <;> simp [cancelLog]
  | cons t' qs' =>
    rw [sched_pop_cons 1 p now t' qs' [(now + t.dur, t)] (log ++ [(t.id, Handler.Setup)]) prog
      (counts ++ [1]) aD aE (now + t.dur) t [] rfl rfl]
    split <;> simp [cancelLog]

theorem c1_aux (b : ATask) (post : List ATask) (hb : b.action = .Continue)
    (hbf : b.success = false) :
    ∀ (pre : List ATask), (∀ t ∈ pre, t.action = .Continue ∧ t.success = true) →
    ∀ (now : Nat) (log : Log) (prog : Nat) (counts : List Nat) (aD : Bool),
      (sched 1 .StopOnError now (pre ++ b :: post) [] log prog counts aD false).log
          = log ++ seqTrace pre ++ [(b.id, Handler.Setup), (b.id, Handler.Error)]
        ∧ (sched 1 .StopOnError now (pre ++ b :: post) [] log prog counts aD false).ok = false
        ∧ (sched 1 .StopOnError now (pre ++ b :: post) [] log prog counts aD false).progress
          = prog + pre.length + 1 + post.length := by
  intro pre
  induction pre with
  | nil =>
    intro hpre now log prog counts aD
    rw [List.nil_append, sched_seq_cont _ _ _ _ _ _ _ _ _ hb]
    simp [hbf, stopsGroup, stopOutcome, res, seqTrace]
  | cons t pre' ih =>
    intro hpre now log prog counts aD
    obtain ⟨hta, hts⟩ := hpre t (List.mem_cons_self t pre')
    rw [List.cons_append, sched_seq_cont _ _ _ _ _ _ _ _ _ hta]
    rw [hts]
    simp only [stopsGroup, Bool.false_eq_true, if_false, Bool.not_true, Bool.or_false]
    obtain ⟨ihl, ihok, ihp⟩ := ih (fun u hu => hpre u (List.mem_cons_of_mem t hu))
      (now + t.dur) (log ++ [(t.id, Handler.Setup), (t.id, res t)]) (prog + 1)
      (counts ++ [1, 0]) (aD || true)
    refine ⟨?_, ihok, ?_⟩
    · rw [ihl]
      simp [seqTrace, res, hts, List.append_assoc]
    · rw [ihp]
      simp only [List.length_cons]
      omega

/-- C1: In a Sequential group with StopOnError policy whose first failing child is `b`
(children `pre` before it all succeed), exactly the children up to and including `b`
run their setup handlers, in declaration order, the children after `b` never start,
and the group resolves as Error, firing its group-error hook.  Instantiated at
{A succeeds, B fails, C succeeds} this gives the trace A.setup, A.done, B.setup,
B.error, group-error — with C.setup never firing. -/
theorem seq_stopOnError_stops_at_first_failure (pre : List ATask) (b : ATask)
    (post : List ATask) (dId eId : Option Nat)
    (hpre : ∀ t ∈ pre, t.action = .Continue ∧ t.success = true)
    (hb : b.action = .Continue) (hbf : b.success = false) :
    (runFlatGroup ⟨.Sequential, .StopOnError, dId, eId, pre ++ b :: post⟩).log
        = seqTrace pre ++ [(b.id, Handler.Setup), (b.id, Handler.Error)]
          ++ hookLog dId eId false
      ∧ (runFlatGroup ⟨.Sequential, .StopOnError, dId, eId, pre ++ b :: post⟩).ok = false := by
  have hne : ((pre ++ b :: post).isEmpty) = false := by
    simp
  have h := c1_aux b post hb hbf pre hpre 0 [] 0 [] false
  unfold runFlatGroup
  rw [hne]
  simp only [ExecMode.limit, Bool.false_eq_true, if_false]
  refine ⟨?_, h.2.1⟩
  rw [h.1, h.2.1]
  simp

/-- Witness for C1: the spec's concrete scenario — A (id 1) succeeds, B (id 2) fails,
C (id 3) succeeds, with the group-error hook at id 0; the observable trace is
A.setup, A.done, B.setup, B.error, group-error, and C.setup never fires. -/
theorem seq_stopOnError_stops_at_first_failure_witness :
    (runFlatGroup ⟨.Sequential, .StopOnError, some 0, some 0,
        [⟨1, .Continue, true, 0⟩] ++ ⟨2, .Continue, false, 0⟩ :: [⟨3, .Continue, true, 0⟩]⟩).log
        = seqTrace [⟨1, .Continue, true, 0⟩] ++ [(2, Handler.Setup), (2, Handler.Error)]
          ++ hookLog (some 0) (some 0) false
      ∧ (runFlatGroup ⟨.Sequential, .StopOnError, some 0, some 0,
        [⟨1, .Continue, true, 0⟩] ++ ⟨2, .Continue, false, 0⟩ :: [⟨3, .Continue, true, 0⟩]⟩).ok
        = false :=
  seq_stopOnError_stops_at_first_failure [⟨1, .Continue, true, 0⟩] ⟨2, .Continue, false, 0⟩
    [⟨3, .Continue, true, 0⟩] (some 0) (some 0) (by decide) rfl rfl

/-- Running a sequential group of plain tasks none of which triggers the policy's
early-stop condition: every child runs and resolves in declaration order, and the
group outcome is the policy's final aggregation of the children's outcomes. -/
theorem sched_seq_noStop (p : WorkflowPolicy) : ∀ (cs : List ATask),
    (∀ t ∈ cs, t.action = .Continue ∧ stopsGroup p t.success = false) →
    ∀ (now : Nat) (log : Log) (prog : Nat) (counts : List Nat) (aD aE : Bool),
      (sched 1 p now cs [] log prog counts aD aE).log = log ++ seqTrace cs
      ∧ (sched 1 p now cs [] log prog counts aD aE).ok
          = finalOutcome p (aD || cs.any (·.success)) (aE || cs.any (fun t => !t.success))
      ∧ (sched 1 p now cs [] log prog counts aD aE).progress = prog + cs.length := by
  intro cs
  induction cs with
  | nil =>
    intro hcs now log prog counts aD aE
    rw [sched_fin]
    refine ⟨by simp [seqTrace], by simp, by simp⟩
  | cons t cs' ih =>
    intro hcs now log prog counts aD aE
    obtain ⟨hta, hts⟩ := hcs t (List.mem_cons_self t cs')
    rw [sched_seq_cont _ _ _ _ _ _ _ _ _ hta, hts]
    simp only [Bool.false_eq_true, if_false]
    obtain ⟨ihl, ihok, ihp⟩ := ih (fun u hu => hcs u (List.mem_cons_of_mem t hu))
      (now + t.dur) (log ++ [(t.id, Handler.Setup), (t.id, res t)]) (prog + 1)
      (counts ++ [1, 0]) (aD || t.success) (aE || !t.success)
    refine ⟨?_, ?_, ?_⟩
    · rw [ihl]
      simp [seqTrace, List.append_assoc]
    · rw [ihok]
      simp [Bool.or_assoc]
    · rw [ihp]
      simp [List.length_cons]
      omega

/-- C3: Under the Optional workflow policy a sequential group in which every child
fails still runs each child's error handler, resolves as Done (its group-done hook
fires, not group-error) and reports success; and Optional is the only policy doing
so — under every other policy a nonempty group whose children all fail reports
failure. -/
theorem optional_group_swallows_all_failures (cs : List ATask) (dId eId : Option Nat)
    (hfail : ∀ t ∈ cs, t.action = .Continue ∧ t.success = false) :
    ((runFlatGroup ⟨.Sequential, .Optional, dId, eId, cs⟩).log
        = seqTrace cs ++ hookLog dId eId true
      ∧ (runFlatGroup ⟨.Sequential, .Optional, dId, eId, cs⟩).ok = true)
    ∧ (∀ p, p ≠ .Optional → cs ≠ [] →
        (runFlatGroup ⟨.Sequential, p, dId, eId, cs⟩).ok = false) := by
  constructor
  · cases hcs : cs with
    | nil => simp [runFlatGroup, seqTrace]
    | cons c cs' =>
      subst hcs
      have hns : ∀ t ∈ c :: cs', t.action = .Continue ∧ stopsGroup .Optional t.success = false := by
        intro t ht
        exact ⟨(hfail t ht).1, by cases t.success <;> rfl⟩
      have h := sched_seq_noStop .Optional (c :: cs') hns 0 [] 0 [] false false
      unfold runFlatGroup
      simp only [List.isEmpty_cons, Bool.false_eq_true, if_false, ExecMode.limit]
      refine ⟨?_, ?_⟩
      · rw [h.1, h.2.1]
        simp [finalOutcome]
      · rw [h.2.1]
        rfl
  · intro p hneq hne
    obtain ⟨c, cs', hcs⟩ : ∃ c cs', cs = c :: cs' := by
      cases cs with
      | nil => exact absurd rfl hne
      | cons c cs' => exact ⟨c, cs', rfl⟩
    subst hcs
    have hca := (hfail c (List.mem_cons_self c cs')).1
    have hcf := (hfail c (List.mem_cons_self c cs')).2
    unfold runFlatGroup
    simp only [List.isEmpty_cons, Bool.false_eq_true, if_false, ExecMode.limit]
    cases p with
    | StopOnError =>
      rw [sched_seq_cont _ _ _ _ _ _ _ _ _ hca, hcf]
      rfl
    | StopOnFinished =>
      rw [sched_seq_cont _ _ _ _ _ _ _ _ _ hca, hcf]
      simp [stopsGroup, stopOutcome]
    | Optional => exact absurd rfl hneq
    | ContinueOnError =>
      have h := sched_seq_noStop .ContinueOnError (c :: cs')
        (fun t ht => ⟨(hfail t ht).1, by rw [(hfail t ht).2]; rfl⟩) 0 [] 0 [] false false
      rw [h.2.1]
      have : (c :: cs').any (fun t => !t.success) = true := by
        simp only [List.any_cons, hcf, Bool.not_false, Bool.true_or]
      rw [this]
      rfl
    | StopOnDone =>
      have h := sched_seq_noStop .StopOnDone (c :: cs')
        (fun t ht => ⟨(hfail t ht).1, by rw [(hfail t ht).2]; rfl⟩) 0 [] 0 [] false false
      rw [h.2.1]
      have : (c :: cs').any (·.success) = false := by
        simp only [List.any_eq_false]
        intro t ht
        simp [(hfail t ht).2]
      rw [this]
      rfl
    | ContinueOnDone =>
      have h := sched_seq_noStop .ContinueOnDone (c :: cs')
        (fun t ht => ⟨(hfail t ht).1, by rw [(hfail t ht).2]; rfl⟩) 0 [] 0 [] false false
      rw [h.2.1]
      have : (c :: cs').any (·.success) = false := by
        simp only [List.any_eq_false]
        intro t ht
        simp [(hfail t ht).2]
      rw [this]
      rfl

/-- Witness for C3: the test suite's `Optional` row — two failing tasks under the
Optional policy; both error handlers fire, then the group-done hook, and the group
reports success, while any other policy on the same children reports failure. -/
theorem optional_group_swallows_all_failures_witness :
    ((runFlatGroup ⟨.Sequential, .Optional, some 0, some 0,
        [⟨1, .Continue, false, 0⟩, ⟨2, .Continue, false, 0⟩]⟩).log
        = seqTrace [⟨1, .Continue, false, 0⟩, ⟨2, .Continue, false, 0⟩]
          ++ hookLog (some 0) (some 0) true
      ∧ (runFlatGroup ⟨.Sequential, .Optional, some 0, some 0,
        [⟨1, .Continue, false, 0⟩, ⟨2, .Continue, false, 0⟩]⟩).ok = true)
    ∧ (∀ p, p ≠ .Optional →
        ([⟨1, .Continue, false, 0⟩, ⟨2, .Continue, false, 0⟩] : List ATask) ≠ [] →
        (runFlatGroup (FlatGroup.mk .Sequential p (some 0) (some 0)
          [⟨1, .Continue, false, 0⟩, ⟨2, .Continue, false, 0⟩])).ok = false) :=
  optional_group_swallows_all_failures
    [⟨1, .Continue, false, 0⟩, ⟨2, .Continue, false, 0⟩] (some 0) (some 0) (by decide)

/-- C4 counterexample: a Group with ContinueOnDone policy and zero children.  The claim
says such a group fails ("the group succeeds if at least one child succeeded, else it
fails ... including the vacuous case of a group with zero children, for which no child
succeeded"), but the engine resolves an empty group as Done — the test suite's
`EmptyContinueOnDone` row expects success.  Here no child succeeded, yet the group
reports success and fires its group-done hook. -/
theorem continueOnDone_empty_group_counterexample :
    (runFlatGroup ⟨.Sequential, .ContinueOnDone, some 0, some 0, []⟩).ok = true
    ∧ (runFlatGroup ⟨.Sequential, .ContinueOnDone, some 0, some 0, []⟩).log
        = [(0, Handler.GroupDone)]
    ∧ ¬ ∃ t ∈ ([] : List ATask), t.success = true := by
  refine ⟨rfl, rfl, by simp⟩

/-- C4 (amended): in a Group with ContinueOnDone policy, all children run to
completion (each logs its setup and its resolution, in declaration order), and for a
group with at least one child the group succeeds exactly when at least one child
succeeded; a group with zero children resolves as Done under every policy, including
ContinueOnDone, rather than failing. -/
theorem continueOnDone_all_run_succeeds_iff_any (cs : List ATask) (dId eId : Option Nat)
    (hcs : ∀ t ∈ cs, t.action = .Continue) :
    (runFlatGroup ⟨.Sequential, .ContinueOnDone, dId, eId, cs⟩).log
        = seqTrace cs ++ hookLog dId eId (cs.isEmpty || cs.any (·.success))
    ∧ (runFlatGroup ⟨.Sequential, .ContinueOnDone, dId, eId, cs⟩).ok
        = (cs.isEmpty || cs.any (·.success)) := by
  cases hc : cs with
  | nil => subst hc; simp [runFlatGroup, seqTrace]
  | cons c cs' =>
    subst hc
    have hns : ∀ t ∈ c :: cs',
        t.action = .Continue ∧ stopsGroup .ContinueOnDone t.success = false := by
      intro t ht
      exact ⟨hcs t ht, by cases t.success <;> rfl⟩
    have h := sched_seq_noStop .ContinueOnDone (c :: cs') hns 0 [] 0 [] false false
    unfold runFlatGroup
    simp only [List.isEmpty_cons, Bool.false_eq_true, if_false, ExecMode.limit]
    have hok : (sched 1 .ContinueOnDone 0 (c :: cs') [] [] 0 [] false false).ok
        = (c :: cs').any (·.success) := by
      rw [h.2.1]
      simp [finalOutcome]
    refine ⟨?_, ?_⟩
    · rw [h.1, hok]
      simp
    · rw [hok]
      simp

/-- Witness for C4 (amended): the test suite's `ContinueOnDone` row — children succeed,
fail, succeed; all three run, and the group succeeds since one child did. -/
theorem continueOnDone_all_run_succeeds_iff_any_witness :
    (runFlatGroup ⟨.Sequential, .ContinueOnDone, some 0, some 0,
        [⟨1, .Continue, true, 0⟩, ⟨2, .Continue, false, 0⟩, ⟨3, .Continue, true, 0⟩]⟩).log
        = seqTrace [⟨1, .Continue, true, 0⟩, ⟨2, .Continue, false, 0⟩, ⟨3, .Continue, true, 0⟩]
          ++ hookLog (some 0) (some 0)
            (([⟨1, .Continue, true, 0⟩, ⟨2, .Continue, false, 0⟩,
               ⟨3, .Continue, true, 0⟩] : List ATask).isEmpty
              || ([⟨1, .Continue, true, 0⟩, ⟨2, .Continue, false, 0⟩,
                   ⟨3, .Continue, true, 0⟩] : List ATask).any (·.success))
    ∧ (runFlatGroup ⟨.Sequential, .ContinueOnDone, some 0, some 0,
        [⟨1, .Continue, true, 0⟩, ⟨2, .Continue, false, 0⟩, ⟨3, .Continue, true, 0⟩]⟩).ok
        = (([⟨1, .Continue, true, 0⟩, ⟨2, .Continue, false, 0⟩,
             ⟨3, .Continue, true, 0⟩] : List ATask).isEmpty
            || ([⟨1, .Continue, true, 0⟩, ⟨2, .Continue, false, 0⟩,
                 ⟨3, .Continue, true, 0⟩] : List ATask).any (·.success)) :=
  continueOnDone_all_run_succeeds_iff_any
    [⟨1, .Continue, true, 0⟩, ⟨2, .Continue, false, 0⟩, ⟨3, .Continue, true, 0⟩]
    (some 0) (some 0) (by decide)

/-- The running-list entries created when tasks are started at time `now`:
each carries the absolute time at which its done signal is due. -/
def stamp (now : Nat) (cs : List ATask) : List (Nat × ATask) :=
  cs.map (fun t => (now + t.dur, t))

/-- The setup entries logged when `cs` are started in declaration order. -/
def setupLog (cs : List ATask) : Log :=
  cs.map (fun t => (t.id, Handler.Setup))

/-- The running-count trace recorded while `k` children are started on top of `r0`
already running. -/
def startCounts (r0 : Nat) (k : Nat) : List Nat :=
  (List.range k).map (fun i => r0 + i + 1)

theorem startCounts_succ (r0 k : Nat) :
    startCounts r0 (k + 1) = (r0 + 1) :: startCounts (r0 + 1) k := by
  unfold startCounts
  rw [List.range_succ_eq_map]
  simp only [List.map_cons, List.map_map, Nat.add_zero]
  congr 1
  apply List.map_congr_left
  intro i _
  simp only [Function.comp_apply]
  omega

/-- In unbounded parallel mode (limit 0) the scheduler starts every queued child —
all setup handlers fire synchronously, in declaration order — before processing any
done signal (spec section 5: for `Parallel`, setup callbacks fire all-at-once,
before control returns to the event loop). -/
theorem sched_par_startAll (p : WorkflowPolicy) : ∀ (cs : List ATask),
    (∀ t ∈ cs, t.action = .Continue) →
    ∀ (now : Nat) (r : List (Nat × ATask)) (log : Log) (prog : Nat) (counts : List Nat)
      (aD aE : Bool),
      sched 0 p now cs r log prog counts aD aE =
        sched 0 p now [] (r ++ stamp now cs) (log ++ setupLog cs) prog
          (counts ++ startCounts r.length cs.length) aD aE := by
  intro cs
  induction cs with
  | nil =>
    intro hcs now r log prog counts aD aE
    simp [stamp, setupLog, startCounts]
  | cons t cs' ih =>
    intro hcs now r log prog counts aD aE
    rw [sched_start 0 p now t cs' r log prog counts aD aE rfl
      (hcs t (List.mem_cons_self t cs'))]
    rw [ih (fun u hu => hcs u (List.mem_cons_of_mem t hu)) now (r ++ [(now + t.dur, t)])
      (log ++ [(t.id, Handler.Setup)]) prog (counts ++ [r.length + 1]) aD aE]
    have hstamp : (r ++ [(now + t.dur, t)]) ++ stamp now cs' = r ++ stamp now (t :: cs') := by
      simp [stamp]
    have hsetup : (log ++ [(t.id, Handler.Setup)]) ++ setupLog cs'
        = log ++ setupLog (t :: cs') := by
      simp [setupLog]
    have hcounts : (counts ++ [r.length + 1])
          ++ startCounts (r ++ [(now + t.dur, t)]).length cs'.length
        = counts ++ startCounts r.length (t :: cs').length := by
      rw [show (r ++ [(now + t.dur, t)]).length = r.length + 1 by simp]
      rw [show (t :: cs').length = cs'.length + 1 from rfl]
      rw [startCounts_succ]
      simp
    rw [hstamp, hsetup, hcounts]

theorem popMin_mem : ∀ {l : List (Nat × ATask)} {m rest},
    popMin l = some (m, rest) → m ∈ l := by
  intro l
  induction l with
  | nil => intro m rest h; simp [popMin] at h
  | cons x xs ih =>
    intro m rest h
    simp only [popMin] at h
    split at h
    · simp only [Option.some.injEq, Prod.mk.injEq] at h
      rw [← h.1]
      exact List.mem_cons_self x xs
    · rename_i m' rest' heq
      split at h
      · simp only [Option.some.injEq, Prod.mk.injEq] at h
        rw [← h.1]
        exact List.mem_cons_self x xs
      · simp only [Option.some.injEq, Prod.mk.injEq] at h
        rw [← h.1]
        exact List.mem_cons_of_mem x (ih heq)

theorem popMin_cons (x : Nat × ATask) (xs : List (Nat × ATask)) :
    popMin (x :: xs) =
      match popMin xs with
      | none => some (x, [])
      | some (m, rest) => if x.1 ≤ m.1 then some (x, xs) else some (m, x :: rest) := rfl

/-- If one entry's due time is strictly smaller than every other entry's, `popMin`
returns exactly that entry, leaving the others in order: in a parallel group, the
child that resolves strictly first is the first done signal the scheduler sees. -/
theorem popMin_strict (f : Nat × ATask) : ∀ (A B : List (Nat × ATask)),
    (∀ x ∈ A ++ B, f.1 < x.1) →
    popMin (A ++ f :: B) = some (f, A ++ B) := by
  intro A
  induction A with
  | nil =>
    intro B hmin
    cases hB : B with
    | nil => rfl
    | cons b bs =>
      subst hB
      show popMin (f :: b :: bs) = some (f, b :: bs)
      rw [popMin_cons]
      cases hp : popMin (b :: bs) with
      | none => exact absurd (popMin_eq_none hp) (by simp)
      | some pr =>
        obtain ⟨m, rest⟩ := pr
        have hm : m ∈ b :: bs := popMin_mem hp
        have hle : f.1 ≤ m.1 := Nat.le_of_lt (hmin m (by simpa using hm))
        simp [hle]
  | cons a A' ih =>
    intro B hmin
    have hmin' : ∀ x ∈ A' ++ B, f.1 < x.1 := by
      intro x hx
      apply hmin
      rcases List.mem_append.mp hx with h | h
      · exact List.mem_append.mpr (Or.inl (List.mem_cons_of_mem a h))
      · exact List.mem_append.mpr (Or.inr h)
    have hfa : f.1 < a.1 := hmin a (by simp)
    show popMin (a :: (A' ++ f :: B)) = some (f, a :: (A' ++ B))
    rw [popMin_cons, ih B hmin']
    have hna : ¬ a.1 ≤ f.1 := by omega
    simp [hna]

theorem cancelLog_append (a b : List (Nat × ATask)) :
    cancelLog (a ++ b) = cancelLog a ++ cancelLog b := by
  simp [cancelLog]

theorem cancelLog_stamp (now : Nat) (cs : List ATask) :
    cancelLog (stamp now cs) = cs.map (fun t => (t.id, Handler.Error)) := by
  simp [cancelLog, stamp, List.map_map, Function.comp]

/-- C2: In a Parallel group with StopOnFinished policy and at least two children, if
child `f` resolves strictly before every other child, the group resolves at that
moment with `f`'s outcome as its own; every other child is canceled — each logs only
the synthetic cancellation error, never a processed done hook. -/
theorem stopOnFinished_first_resolved_wins (pre post : List ATask) (f : ATask)
    (dId eId : Option Nat)
    (hall : ∀ t ∈ pre ++ f :: post, t.action = .Continue)
    (hmin : ∀ t ∈ pre ++ post, f.dur < t.dur)
    (htwo : 1 ≤ pre.length + post.length) :
    (runFlatGroup ⟨.Parallel, .StopOnFinished, dId, eId, pre ++ f :: post⟩).ok = f.success
    ∧ (runFlatGroup ⟨.Parallel, .StopOnFinished, dId, eId, pre ++ f :: post⟩).log
        = setupLog (pre ++ f :: post) ++ [(f.id, res f)]
          ++ (pre ++ post).map (fun t => (t.id, Handler.Error))
          ++ hookLog dId eId f.success := by
  have hne : ((pre ++ f :: post).isEmpty) = false := by simp
  unfold runFlatGroup
  rw [hne]
  simp only [Bool.false_eq_true, if_false, ExecMode.limit]
  rw [sched_par_startAll .StopOnFinished (pre ++ f :: post) hall 0 [] [] 0 [] false false]
  have hsplit : stamp 0 (pre ++ f :: post)
      = stamp 0 pre ++ (0 + f.dur, f) :: stamp 0 post := by
    simp [stamp]
  have hpop : popMin ([] ++ stamp 0 (pre ++ f :: post))
      = some ((0 + f.dur, f), stamp 0 pre ++ stamp 0 post) := by
    rw [List.nil_append, hsplit]
    apply popMin_strict
    intro x hx
    rcases List.mem_append.mp hx with h | h
    · obtain ⟨t, ht, rfl⟩ := List.mem_map.mp h
      have := hmin t (List.mem_append.mpr (Or.inl ht))
      simpa using this
    · obtain ⟨t, ht, rfl⟩ := List.mem_map.mp h
      have := hmin t (List.mem_append.mpr (Or.inr ht))
      simpa using this
  rw [sched_pop_nil 0 .StopOnFinished 0 ([] ++ stamp 0 (pre ++ f :: post)) _ _ _ false false
    (0 + f.dur) f (stamp 0 pre ++ stamp 0 post) hpop]
  have hstop : stopsGroup .StopOnFinished f.success = true := by
    cases f.success <;> rfl
  rw [if_pos hstop]
  have hout : stopOutcome .StopOnFinished f.success = f.success := by
    cases f.success <;> rfl
  refine ⟨hout, ?_⟩
  rw [hout]
  simp only [List.nil_append, RunResult.log]
  rw [cancelLog_append, cancelLog_stamp, cancelLog_stamp, ← List.map_append]

/-- Witness for C2: the test suite's `StopOnFinished1` row — two parallel tasks, id 1
succeeding after 1000 ms and id 2 succeeding after 1 ms; task 2 finishes first, the
group resolves Done with task 2's outcome, and task 1 is canceled (logs its error
handler, never a done). -/
theorem stopOnFinished_first_resolved_wins_witness :
    (runFlatGroup ⟨.Parallel, .StopOnFinished, some 0, some 0,
        [ATask.mk 1 .Continue true 1000] ++ ATask.mk 2 .Continue true 1 :: []⟩).ok
      = (ATask.mk 2 .Continue true 1).success
    ∧ (runFlatGroup ⟨.Parallel, .StopOnFinished, some 0, some 0,
        [ATask.mk 1 .Continue true 1000] ++ ATask.mk 2 .Continue true 1 :: []⟩).log
        = setupLog ([ATask.mk 1 .Continue true 1000] ++ ATask.mk 2 .Continue true 1 :: [])
          ++ [((ATask.mk 2 .Continue true 1).id, res (ATask.mk 2 .Continue true 1))]
          ++ ([ATask.mk 1 .Continue true 1000] ++ ([] : List ATask)).map
              (fun t => (t.id, Handler.Error))
          ++ hookLog (some 0) (some 0) (ATask.mk 2 .Continue true 1).success :=
  stopOnFinished_first_resolved_wins [ATask.mk 1 .Continue true 1000] []
    (ATask.mk 2 .Continue true 1)
    (some 0) (some 0) (by decide) (by decide) (by decide)

theorem res_ne_setup (t : ATask) : res t ≠ Handler.Setup := by
  unfold res
  cases t.success <;> simp

theorem cancelLog_no_setup (r : List (Nat × ATask)) :
    ∀ e ∈ cancelLog r, e.2 ≠ Handler.Setup := by
  intro e he
  simp only [cancelLog, List.mem_map] at he
  obtain ⟨x, -, rfl⟩ := he
  simp

theorem hookLog_no_setup (d e : Option Nat) (b : Bool) :
    ∀ x ∈ hookLog d e b, x.2 ≠ Handler.Setup := by
  intro x hx
  cases b with
  | false =>
    cases e with
    | none => simp [hookLog] at hx
    | some i =>
      simp only [hookLog, Bool.false_eq_true, if_false, List.mem_singleton] at hx
      subst hx
      simp
  | true =>
    cases d with
    | none => simp [hookLog] at hx
    | some i =>
      simp only [hookLog, if_true, List.mem_singleton] at hx
      subst hx
      simp

/-- Once the queue is empty, the scheduler only processes done signals and
cancellations: every log entry it appends from then on is a resolution
(`Done`/`Error`), never a `Setup`. -/
theorem sched_nil_queue_no_setup (limit : Nat) (p : WorkflowPolicy) :
    ∀ (n : Nat) (r : List (Nat × ATask)), r.length ≤ n →
    ∀ (now : Nat) (log : Log) (prog : Nat) (counts : List Nat) (aD aE : Bool),
      ∃ tail, (sched limit p now [] r log prog counts aD aE).log = log ++ tail
        ∧ ∀ e ∈ tail, e.2 ≠ Handler.Setup := by
  intro n
  induction n with
  | zero =>
    intro r hr now log prog counts aD aE
    have hr0 : r = [] := List.eq_nil_of_length_eq_zero (Nat.le_zero.mp hr)
    subst hr0
    rw [sched_fin]
    exact ⟨[], by simp, by simp⟩
  | succ n ih =>
    intro r hr now log prog counts aD aE
    cases hp : popMin r with
    | none =>
      have hr0 : r = [] := popMin_eq_none hp
      subst hr0
      rw [sched_fin]
      exact ⟨[], by simp, by simp⟩
    | some pr =>
      obtain ⟨⟨tf, u⟩, rest⟩ := pr
      rw [sched_pop_nil limit p now r log prog counts aD aE tf u rest hp]
      by_cases hs : stopsGroup p u.success = true
      · rw [if_pos hs]
        refine ⟨[(u.id, res u)] ++ cancelLog rest, by simp [List.append_assoc], ?_⟩
        intro e he
        rcases List.mem_append.mp he with h | h
        · rw [List.mem_singleton] at h
          subst h
          exact res_ne_setup u
        · exact cancelLog_no_setup rest e h
      · rw [if_neg hs]
        have hlen : rest.length ≤ n := by
          have := popMin_length hp
          omega
        obtain ⟨tail, htl, hts⟩ := ih rest hlen tf (log ++ [(u.id, res u)]) (prog + 1)
          (counts ++ [rest.length]) (aD || u.success) (aE || !u.success)
        refine ⟨[(u.id, res u)] ++ tail, ?_, ?_⟩
        · rw [htl]
          simp [List.append_assoc]
        · intro e he
          rcases List.mem_append.mp he with h | h
          · rw [List.mem_singleton] at h
            subst h
            exact res_ne_setup u
          · exact hts e h

/-- C6: In a Parallel group, all N children's setup hooks fire — in declaration
order, synchronously, before control returns to the event loop — before any child's
done or error hook fires: the log is the full setup sequence followed by a tail
containing no setup entry, for every workflow policy. -/
theorem parallel_setups_fire_before_resolutions (cs : List ATask) (p : WorkflowPolicy)
    (dId eId : Option Nat) (hcs : ∀ t ∈ cs, t.action = .Continue) :
    ∃ tail, (runFlatGroup ⟨.Parallel, p, dId, eId, cs⟩).log = setupLog cs ++ tail
      ∧ ∀ e ∈ tail, e.2 ≠ Handler.Setup := by
  cases hc : cs with
  | nil =>
    refine ⟨hookLog dId eId true, ?_, hookLog_no_setup dId eId true⟩
    simp [runFlatGroup, setupLog]
  | cons c cs' =>
    subst hc
    have hne : ((c :: cs').isEmpty) = false := by simp
    unfold runFlatGroup
    rw [hne]
    simp only [Bool.false_eq_true, if_false, ExecMode.limit]
    rw [sched_par_startAll p (c :: cs') hcs 0 [] [] 0 [] false false]
    obtain ⟨tail, htl, hts⟩ := sched_nil_queue_no_setup 0 p
      ([] ++ stamp 0 (c :: cs')).length ([] ++ stamp 0 (c :: cs')) (Nat.le_refl _)
      0 ([] ++ setupLog (c :: cs')) 0 ([] ++ startCounts [].length (c :: cs').length)
      false false
    generalize hR : sched 0 p 0 [] ([] ++ stamp 0 (c :: cs')) ([] ++ setupLog (c :: cs')) 0
        ([] ++ startCounts [].length (c :: cs').length) false false = R at htl ⊢
    refine ⟨tail ++ hookLog dId eId R.ok, ?_, ?_⟩
    · rw [htl]
      simp [List.append_assoc]
    · intro e he
      rcases List.mem_append.mp he with h | h
      · exact hts e h
      · exact hookLog_no_setup dId eId _ e h

/-- Witness for C6: the test suite's `Parallel` row — five parallel succeeding tasks
under StopOnError; all five setups fire first, then the five dones and the
group-done hook. -/
theorem parallel_setups_fire_before_resolutions_witness :
    ∃ tail, (runFlatGroup ⟨.Parallel, .StopOnError, some 0, some 0,
        [⟨1, .Continue, true, 0⟩, ⟨2, .Continue, true, 0⟩, ⟨3, .Continue, true, 0⟩,
         ⟨4, .Continue, true, 0⟩, ⟨5, .Continue, true, 0⟩]⟩).log
        = setupLog [⟨1, .Continue, true, 0⟩, ⟨2, .Continue, true, 0⟩, ⟨3, .Continue, true, 0⟩,
            ⟨4, .Continue, true, 0⟩, ⟨5, .Continue, true, 0⟩] ++ tail
      ∧ ∀ e ∈ tail, e.2 ≠ Handler.Setup :=
  parallel_setups_fire_before_resolutions
    [⟨1, .Continue, true, 0⟩, ⟨2, .Continue, true, 0⟩, ⟨3, .Continue, true, 0⟩,
     ⟨4, .Continue, true, 0⟩, ⟨5, .Continue, true, 0⟩] .StopOnError (some 0) (some 0)
    (by decide)

/-- With a nonzero parallelism limit `n`, the scheduler's running-children count never
exceeds `n`: every recorded count stays within the limit (a child is only started
while strictly fewer than `n` children run). -/
theorem sched_counts_bound (n : Nat) (p : WorkflowPolicy) (hn : n ≠ 0) :
    ∀ (now : Nat) (queue : List ATask) (running : List (Nat × ATask)) (log : Log)
      (prog : Nat) (counts : List Nat) (aD aE : Bool),
      running.length ≤ n → (∀ c ∈ counts, c ≤ n) →
      ∀ c ∈ (sched n p now queue running log prog counts aD aE).counts, c ≤ n := by
  intro now queue running log prog counts aD aE
  induction now, queue, running, log, prog, counts, aD, aE using sched.induct n p with
  | case1 now running log prog counts aD aE t qs hc ha ih =>
    intro hr hcnt
    have hlt : running.length < n := by
      have hc' : n = 0 ∨ running.length < n := by
        have h2 := hc
        unfold canStart at h2
        simpa using h2
      rcases hc' with h | h
      · exact absurd h hn
      · exact h
    rw [sched_start n p now t qs running log prog counts aD aE hc ha]
    apply ih
    · simp
      omega
    · intro c hcm
      rcases List.mem_append.mp hcm with h | h
      · exact hcnt c h
      · rw [List.mem_singleton] at h
        omega
  | case2 now running log prog counts aD aE t qs hc ha hs =>
    intro hr hcnt
    rw [sched_start_stopDone n p now t qs running log prog counts aD aE hc ha, if_pos hs]
    exact hcnt
  | case3 now running log prog counts aD aE t qs hc ha hns ih =>
    intro hr hcnt
    rw [sched_start_stopDone n p now t qs running log prog counts aD aE hc ha, if_neg hns]
    exact ih hr hcnt
  | case4 now running log prog counts aD aE t qs hc ha hs =>
    intro hr hcnt
    rw [sched_start_stopError n p now t qs running log prog counts aD aE hc ha, if_pos hs]
    exact hcnt
  | case5 now running log prog counts aD aE t qs hc ha hns ih =>
    intro hr hcnt
    rw [sched_start_stopError n p now t qs running log prog counts aD aE hc ha, if_neg hns]
    exact ih hr hcnt
  | case6 now running log prog counts aD aE t qs hnc hp =>
    intro hr hcnt
    have h0 := popMin_eq_none hp
    subst h0
    exact absurd canStart_zero_running hnc
  | case7 now running log prog counts aD aE t qs hnc tf u rest hp hs =>
    intro hr hcnt
    have hcf : canStart n running.length = false := by simpa using hnc
    rw [sched_pop_cons n p now t qs running log prog counts aD aE tf u rest hcf hp, if_pos hs]
    intro c hcm
    rcases List.mem_append.mp hcm with h | h
    · exact hcnt c h
    · rw [List.mem_singleton] at h
      have := popMin_length hp
      omega
  | case8 now running log prog counts aD aE t qs hnc tf u rest hp hns ih =>
    intro hr hcnt
    have hcf : canStart n running.length = false := by simpa using hnc
    rw [sched_pop_cons n p now t qs running log prog counts aD aE tf u rest hcf hp, if_neg hns]
    have hlen := popMin_length hp
    apply ih
    · omega
    · intro c hcm
      rcases List.mem_append.mp hcm with h | h
      · exact hcnt c h
      · rw [List.mem_singleton] at h
        omega
  | case9 now running log prog counts aD aE hp =>
    intro hr hcnt
    have h0 := popMin_eq_none hp
    subst h0
    rw [sched_fin]
    exact hcnt
  | case10 now running log prog counts aD aE tf u rest hp hs =>
    intro hr hcnt
    rw [sched_pop_nil n p now running log prog counts aD aE tf u rest hp, if_pos hs]
    intro c hcm
    rcases List.mem_append.mp hcm with h | h
    · exact hcnt c h
    · rw [List.mem_singleton] at h
      have := popMin_length hp
      omega
  | case11 now running log prog counts aD aE tf u rest hp hns ih =>
    intro hr hcnt
    rw [sched_pop_nil n p now running log prog counts aD aE tf u rest hp, if_neg hns]
    have hlen := popMin_length hp
    apply ih
    · omega
    · intro c hcm
      rcases List.mem_append.mp hcm with h | h
      · exact hcnt c h
      · rw [List.mem_singleton] at h
        omega

theorem setupsOf_append (a b : Log) : setupsOf (a ++ b) = setupsOf a ++ setupsOf b := by
  simp [setupsOf]

theorem setupsOf_setup (i : Nat) : setupsOf [(i, Handler.Setup)] = [i] := rfl

theorem setupsOf_res (i : Nat) (u : ATask) : setupsOf [(i, res u)] = [] := by
  unfold setupsOf res
  cases u.success <;> rfl

theorem setupsOf_cancelLog (r : List (Nat × ATask)) : setupsOf (cancelLog r) = [] := by
  induction r with
  | nil => rfl
  | cons x xs ih => simpa [setupsOf, cancelLog, List.filterMap_cons] using ih

theorem setupsOf_hookLog (d e : Option Nat) (b : Bool) : setupsOf (hookLog d e b) = [] := by
  cases b
  · cases e <;> rfl
  · cases d <;> rfl

/-- The scheduler starts children in strict declaration (FIFO) order: the sequence of
setup handlers fired is always the queue's ids in order, cut off at some point —
never reordered, never skipping ahead. -/
theorem sched_fifo (limit : Nat) (p : WorkflowPolicy) :
    ∀ (now : Nat) (queue : List ATask) (running : List (Nat × ATask)) (log : Log)
      (prog : Nat) (counts : List Nat) (aD aE : Bool),
      ∃ k, setupsOf ((sched limit p now queue running log prog counts aD aE).log)
        = setupsOf log ++ (queue.map (fun t => t.id)).take k := by
  intro now queue running log prog counts aD aE
  induction now, queue, running, log, prog, counts, aD, aE using sched.induct limit p with
  | case1 now running log prog counts aD aE t qs hc ha ih =>
    rw [sched_start limit p now t qs running log prog counts aD aE hc ha]
    obtain ⟨k, hk⟩ := ih
    refine ⟨k + 1, ?_⟩
    rw [hk, setupsOf_append, setupsOf_setup]
    simp [List.append_assoc]
  | case2 now running log prog counts aD aE t qs hc ha hs =>
    rw [sched_start_stopDone limit p now t qs running log prog counts aD aE hc ha, if_pos hs]
    refine ⟨1, ?_⟩
    simp only [RunResult.log]
    rw [setupsOf_append, setupsOf_append, setupsOf_setup, setupsOf_cancelLog]
    simp
  | case3 now running log prog counts aD aE t qs hc ha hns ih =>
    rw [sched_start_stopDone limit p now t qs running log prog counts aD aE hc ha, if_neg hns]
    obtain ⟨k, hk⟩ := ih
    refine ⟨k + 1, ?_⟩
    rw [hk, setupsOf_append, setupsOf_setup]
    simp [List.append_assoc]
  | case4 now running log prog counts aD aE t qs hc ha hs =>
    rw [sched_start_stopError limit p now t qs running log prog counts aD aE hc ha, if_pos hs]
    refine ⟨1, ?_⟩
    simp only [RunResult.log]
    rw [setupsOf_append, setupsOf_append, setupsOf_setup, setupsOf_cancelLog]
    simp
  | case5 now running log prog counts aD aE t qs hc ha hns ih =>
    rw [sched_start_stopError limit p now t qs running log prog counts aD aE hc ha, if_neg hns]
    obtain ⟨k, hk⟩ := ih
    refine ⟨k + 1, ?_⟩
    rw [hk, setupsOf_append, setupsOf_setup]
    simp [List.append_assoc]
  | case6 now running log prog counts aD aE t qs hnc hp =>
    have h0 := popMin_eq_none hp
    subst h0
    exact absurd canStart_zero_running hnc
  | case7 now running log prog counts aD aE t qs hnc tf u rest hp hs =>
    have hcf : canStart limit running.length = false := by simpa using hnc
    rw [sched_pop_cons limit p now t qs running log prog counts aD aE tf u rest hcf hp,
      if_pos hs]
    refine ⟨0, ?_⟩
    simp only [RunResult.log]
    rw [setupsOf_append, setupsOf_append, setupsOf_res, setupsOf_cancelLog]
    simp
  | case8 now running log prog counts aD aE t qs hnc tf u rest hp hns ih =>
    have hcf : canStart limit running.length = false := by simpa using hnc
    rw [sched_pop_cons limit p now t qs running log prog counts aD aE tf u rest hcf hp,
      if_neg hns]
    obtain ⟨k, hk⟩ := ih
    refine ⟨k, ?_⟩
    rw [hk, setupsOf_append, setupsOf_res]
    simp
  | case9 now running log prog counts aD aE hp =>
    have h0 := popMin_eq_none hp
    subst h0
    rw [sched_fin]
    exact ⟨0, by simp⟩
  | case10 now running log prog counts aD aE tf u rest hp hs =>
    rw [sched_pop_nil limit p now running log prog counts aD aE tf u rest hp, if_pos hs]
    refine ⟨0, ?_⟩
    simp only [RunResult.log]
    rw [setupsOf_append, setupsOf_append, setupsOf_res, setupsOf_cancelLog]
    simp
  | case11 now running log prog counts aD aE tf u rest hp hns ih =>
    rw [sched_pop_nil limit p now running log prog counts aD aE tf u rest hp, if_neg hns]
    obtain ⟨k, hk⟩ := ih
    refine ⟨k, ?_⟩
    rw [hk, setupsOf_append, setupsOf_res]
    simp

/-- C5: In a ParallelLimit(n) group (n ≥ 1), the count of simultaneously running
children never exceeds n — every entry of the recorded running-count trace is ≤ n;
children are started in declaration order with strict FIFO fairness — the fired
setup sequence is a cut of the children's ids in declaration order; and in the
concrete scenario ParallelLimit(2) with four instantly succeeding tasks T1..T4,
T1 and T2 start together, T3 then T4 start as slots free up (trace
T1.setup T2.setup T1.done T3.setup T2.done T4.setup T3.done T4.done), and the final
progress value is 4. -/
theorem parallelLimit_bound_fifo_and_scenario (n : Nat) (hn : 1 ≤ n) (p : WorkflowPolicy)
    (dId eId : Option Nat) (cs : List ATask) :
    (∀ c ∈ (runFlatGroup ⟨.ParallelLimit n, p, dId, eId, cs⟩).counts, c ≤ n)
    ∧ (∃ k, setupsOf ((runFlatGroup ⟨.ParallelLimit n, p, dId, eId, cs⟩).log)
        = (cs.map (fun t => t.id)).take k)
    ∧ runFlatGroup ⟨.ParallelLimit 2, .StopOnError, none, none,
        [⟨1, .Continue, true, 0⟩, ⟨2, .Continue, true, 0⟩, ⟨3, .Continue, true, 0⟩,
         ⟨4, .Continue, true, 0⟩]⟩
      = ⟨[(1, Handler.Setup), (2, Handler.Setup), (1, Handler.Done), (3, Handler.Setup),
          (2, Handler.Done), (4, Handler.Setup), (3, Handler.Done), (4, Handler.Done)],
         true, 4, [1, 2, 1, 2, 1, 2, 1, 0]⟩ := by
  refine ⟨?_, ?_, ?_⟩
  · unfold runFlatGroup
    by_cases hce : cs.isEmpty = true
    · rw [if_pos hce]
      simp
    · rw [if_neg hce]
      simp only [ExecMode.limit]
      exact sched_counts_bound n p (by omega) 0 cs [] [] 0 [] false false (by simp) (by simp)
  · unfold runFlatGroup
    by_cases hce : cs.isEmpty = true
    · rw [if_pos hce]
      refine ⟨0, ?_⟩
      simp [setupsOf_hookLog]
    · rw [if_neg hce]
      simp only [ExecMode.limit]
      obtain ⟨k, hk⟩ := sched_fifo n p 0 cs [] [] 0 [] false false
      refine ⟨k, ?_⟩
      dsimp only
      rw [setupsOf_append, hk, setupsOf_hookLog]
      simp [setupsOf]
  · simp [runFlatGroup, sched, popMin, canStart, stopsGroup, res, finalOutcome, cancelLog,
      ExecMode.limit, hookLog]

/-- Witness for C5: the bound and FIFO order at n = 2 on the concrete four-task
scenario itself. -/
theorem parallelLimit_bound_fifo_and_scenario_witness :
    (∀ c ∈ (runFlatGroup ⟨.ParallelLimit 2, .StopOnError, none, none,
        [⟨1, .Continue, true, 0⟩, ⟨2, .Continue, true, 0⟩, ⟨3, .Continue, true, 0⟩,
         ⟨4, .Continue, true, 0⟩]⟩).counts, c ≤ 2)
    ∧ (∃ k, setupsOf ((runFlatGroup ⟨.ParallelLimit 2, .StopOnError, none, none,
        [⟨1, .Continue, true, 0⟩, ⟨2, .Continue, true, 0⟩, ⟨3, .Continue, true, 0⟩,
         ⟨4, .Continue, true, 0⟩]⟩).log)
        = (([⟨1, .Continue, true, 0⟩, ⟨2, .Continue, true, 0⟩, ⟨3, .Continue, true, 0⟩,
             ⟨4, .Continue, true, 0⟩] : List ATask).map (fun t => t.id)).take k)
    ∧ runFlatGroup ⟨.ParallelLimit 2, .StopOnError, none, none,
        [⟨1, .Continue, true, 0⟩, ⟨2, .Continue, true, 0⟩, ⟨3, .Continue, true, 0⟩,
         ⟨4, .Continue, true, 0⟩]⟩
      = ⟨[(1, Handler.Setup), (2, Handler.Setup), (1, Handler.Done), (3, Handler.Setup),
          (2, Handler.Done), (4, Handler.Setup), (3, Handler.Done), (4, Handler.Done)],
         true, 4, [1, 2, 1, 2, 1, 2, 1, 0]⟩ :=
  parallelLimit_bound_fifo_and_scenario 2 (by decide) .StopOnError none none
    [⟨1, .Continue, true, 0⟩, ⟨2, .Continue, true, 0⟩, ⟨3, .Continue, true, 0⟩,
     ⟨4, .Continue, true, 0⟩]

/-- Modelled from the spec: the `Barrier` primitive (spec section 4.2; the class itself
lives in the missing barrier.h): an internal counter with a required threshold.
`advance` increments the counter; on reaching the threshold the barrier transitions
to Released and all registered waiters are released; advancing past release is a
no-op.  A waiter registering after release is released immediately.
`releasedOrder` records the released waiter ids in release order. -/
structure Barrier where
  threshold : Nat
  current : Nat
  waiters : List Nat
  releasedOrder : List Nat
deriving DecidableEq, Repr

/-- The barrier is released once its counter has reached the threshold. -/
def Barrier.isReleased (b : Barrier) : Bool := b.threshold ≤ b.current

/-- `advance()`: increment the counter; on reaching the threshold, release every
currently-registered waiter; past release, a no-op. -/
def Barrier.advance (b : Barrier) : Barrier :=
  if b.isReleased then b
  else
    if b.threshold ≤ b.current + 1 then
      { b with
        current := b.current + 1
        waiters := []
        releasedOrder := b.releasedOrder ++ b.waiters }
    else
      { b with current := b.current + 1 }

/-- Register one waiter: released immediately if the barrier is already released,
queued otherwise. -/
def Barrier.addWaiter (b : Barrier) (id : Nat) : Barrier :=
  if b.isReleased then { b with releasedOrder := b.releasedOrder ++ [id] }
  else { b with waiters := b.waiters ++ [id] }

/-- Register a list of waiters in order. -/
def Barrier.addWaiters (b : Barrier) (ids : List Nat) : Barrier :=
  ids.foldl Barrier.addWaiter b

/-- A fresh Single barrier: threshold 1 (`SingleBarrier` in barrier.h). -/
def singleBarrier : Barrier := ⟨1, 0, [], []⟩

/-- A fresh Multi[N] barrier: threshold N (`MultiBarrier<N>` in barrier.h). -/
def multiBarrier (n : Nat) : Barrier := ⟨n, 0, [], []⟩

/-- Advance the i-th barrier of a system of independent barrier instances. -/
def advanceIn : List Barrier → Nat → List Barrier
  | [], _ => []
  | b :: bs, 0 => b.advance :: bs
  | b :: bs, i + 1 => b :: advanceIn bs i

theorem addWaiters_unreleased (t c : Nat) (hc : c < t) (w r ids : List Nat) :
    Barrier.addWaiters ⟨t, c, w, r⟩ ids = ⟨t, c, w ++ ids, r⟩ := by
  induction ids generalizing w with
  | nil => simp [Barrier.addWaiters]
  | cons i ids ih =>
    have hrel : Barrier.isReleased ⟨t, c, w, r⟩ = false := by
      simp [Barrier.isReleased]
      omega
    show Barrier.addWaiters (Barrier.addWaiter ⟨t, c, w, r⟩ i) ids = _
    rw [Barrier.addWaiter, hrel]
    simp only [Bool.false_eq_true, if_false]
    rw [ih (w ++ [i])]
    simp

/-- C7: A Single barrier releases all currently-registered waiters the instant
`advance()` is called once (none were released before); a Multi[2] barrier releases
no waiter after one `advance()`, and releases them all after exactly two; and in a
system of independent barrier instances, advancing one leaves every other instance
untouched. -/
theorem barrier_single_multi_and_independence (ws : List Nat) :
    ((singleBarrier.addWaiters ws).releasedOrder = []
      ∧ ((singleBarrier.addWaiters ws).advance).releasedOrder = ws
      ∧ ((singleBarrier.addWaiters ws).advance).waiters = [])
    ∧ (((multiBarrier 2).addWaiters ws).advance.releasedOrder = []
      ∧ ((multiBarrier 2).addWaiters ws).advance.waiters = ws
      ∧ (((multiBarrier 2).addWaiters ws).advance).advance.releasedOrder = ws)
    ∧ (∀ (sys : List Barrier) (i j : Nat), i ≠ j → (advanceIn sys i)[j]? = sys[j]?) := by
  have h1 : singleBarrier.addWaiters ws = ⟨1, 0, ws, []⟩ := by
    have := addWaiters_unreleased 1 0 (by omega) [] [] ws
    simpa [singleBarrier] using this
  have h2 : (multiBarrier 2).addWaiters ws = ⟨2, 0, ws, []⟩ := by
    have := addWaiters_unreleased 2 0 (by omega) [] [] ws
    simpa [multiBarrier] using this
  refine ⟨⟨?_, ?_, ?_⟩, ⟨?_, ?_, ?_⟩, ?_⟩
  · rw [h1]
  · rw [h1]
    simp [Barrier.advance, Barrier.isReleased]
  · rw [h1]
    simp [Barrier.advance, Barrier.isReleased]
  · rw [h2]
    simp [Barrier.advance, Barrier.isReleased]
  · rw [h2]
    simp [Barrier.advance, Barrier.isReleased]
  · rw [h2]
    simp [Barrier.advance, Barrier.isReleased]
  · intro sys
    induction sys with
    | nil => intro i j hij; simp [advanceIn]
    | cons b bs ih =>
      intro i j hij
      cases i with
      | zero =>
        cases j with
        | zero => exact absurd rfl hij
        | succ j' => simp [advanceIn]
      | succ i' =>
        cases j with
        | zero => simp [advanceIn]
        | succ j' =>
          simp only [advanceIn]
          have := ih i' j' (by omega)
          simpa using this

/-- Witness for C7: three registered waiters on a Single barrier are all released by
one advance; a Multi[2] barrier with the same waiters releases none after one
advance and all after two; and advancing barrier 0 of a two-barrier system leaves
barrier 1 untouched. -/
theorem barrier_single_multi_and_independence_witness :
    ((singleBarrier.addWaiters [1, 2, 3]).releasedOrder = []
      ∧ ((singleBarrier.addWaiters [1, 2, 3]).advance).releasedOrder = [1, 2, 3]
      ∧ ((singleBarrier.addWaiters [1, 2, 3]).advance).waiters = [])
    ∧ (((multiBarrier 2).addWaiters [1, 2, 3]).advance.releasedOrder = []
      ∧ ((multiBarrier 2).addWaiters [1, 2, 3]).advance.waiters = [1, 2, 3]
      ∧ (((multiBarrier 2).addWaiters [1, 2, 3]).advance).advance.releasedOrder = [1, 2, 3])
    ∧ (∀ (sys : List Barrier) (i j : Nat), i ≠ j → (advanceIn sys i)[j]? = sys[j]?) :=
  barrier_single_multi_and_independence [1, 2, 3]

/-- Modelled from the spec: the observable lifecycle state of a TaskTree with one
registered Storage handle (spec sections 3 and 4; the TaskTree/TreeStorage classes
live in the missing tasking.cpp/h).  Tracks whether the tree is running, the count
of live storage instances (`CustomStorage::instanceCount` in the test), how often
the storage setup and done callbacks fired, the outstanding started tasks, and how
often task done callbacks were invoked. -/
structure TreeState where
  running : Bool
  storageInstances : Nat
  storageSetupCalls : Nat
  storageDoneCalls : Nat
  pendingTasks : Nat
  taskDoneCalls : Nat
deriving DecidableEq, Repr

/-- A freshly built tree with `tasks` leaf tasks: nothing has run, no storage
instance exists yet (created only on start). -/
def TreeState.make (tasks : Nat) : TreeState := ⟨false, 0, 0, 0, tasks, 0⟩

/-- `start()`: idempotent-guarded; creates the per-run storage instance and fires the
registered storage setup callback exactly once, then begins driving tasks. -/
def TreeState.start (s : TreeState) : TreeState :=
  if s.running then s
  else
    { s with
      running := true
      storageInstances := s.storageInstances + 1
      storageSetupCalls := s.storageSetupCalls + 1 }

/-- One outstanding task resolves: its done callback runs; when the last task
resolves the run completes — the storage done callback fires and the storage
instance is destroyed. -/
def TreeState.completeTask (s : TreeState) : TreeState :=
  if s.running ∧ 0 < s.pendingTasks then
    if s.pendingTasks = 1 then
      { s with
        running := false
        pendingTasks := 0
        taskDoneCalls := s.taskDoneCalls + 1
        storageDoneCalls := s.storageDoneCalls + 1
        storageInstances := s.storageInstances - 1 }
    else
      { s with
        pendingTasks := s.pendingTasks - 1
        taskDoneCalls := s.taskDoneCalls + 1 }
  else s

/-- Destroying a running tree: outstanding tasks are canceled without invoking their
done callbacks, and every storage instance created for the run is destroyed without
invoking the paired storage done callback (the run was aborted, not completed). -/
def TreeState.destroy (s : TreeState) : TreeState :=
  { s with
    running := false
    storageInstances := 0
    pendingTasks := 0 }

/-- C8: If a running TaskTree is destroyed before any task resolves, the registered
storage setup callback has fired exactly once, the paired storage done callback
never fired, no outstanding task's done callback was invoked, and every storage
instance created for the run is destroyed by the time the destructor returns
(while just before destruction the started tree held exactly one live instance). -/
theorem storage_destructor_semantics (tasks : Nat) (htasks : 1 ≤ tasks) :
    (((TreeState.make tasks).start).storageInstances = 1
      ∧ ((TreeState.make tasks).start).storageSetupCalls = 1
      ∧ ((TreeState.make tasks).start).running = true)
    ∧ ((((TreeState.make tasks).start).destroy).storageSetupCalls = 1
      ∧ (((TreeState.make tasks).start).destroy).storageDoneCalls = 0
      ∧ (((TreeState.make tasks).start).destroy).taskDoneCalls = 0
      ∧ (((TreeState.make tasks).start).destroy).storageInstances = 0
      ∧ (((TreeState.make tasks).start).destroy).running = false) := by
  refine ⟨⟨?_, ?_, ?_⟩, ⟨?_, ?_, ?_, ?_, ?_⟩⟩ <;>
    simp [TreeState.make, TreeState.start, TreeState.destroy]

/-- Witness for C8: the test's `storageDestructor` scenario — one sleeping task,
tree started then destroyed: setup fired once, done never, instance count back to
zero. -/
theorem storage_destructor_semantics_witness :
    (((TreeState.make 1).start).storageInstances = 1
      ∧ ((TreeState.make 1).start).storageSetupCalls = 1
      ∧ ((TreeState.make 1).start).running = true)
    ∧ ((((TreeState.make 1).start).destroy).storageSetupCalls = 1
      ∧ (((TreeState.make 1).start).destroy).storageDoneCalls = 0
      ∧ (((TreeState.make 1).start).destroy).taskDoneCalls = 0
      ∧ (((TreeState.make 1).start).destroy).storageInstances = 0
      ∧ (((TreeState.make 1).start).destroy).running = false) :=
  storage_destructor_semantics 1 (by decide)

mutual
/-- Modelled from the spec: a node of the execution tree run in sequential mode
(spec section 3; the Group/Sync/TaskTree-adapter items live in the missing
tasking.h): a leaf asynchronous task, a synchronous `Sync` element (a function
returning void or bool, run inline), a nested TaskTree task wrapping a whole inner
tree (opaque to the outer tree's accounting), or a group of children with a
workflow policy and optional done/error hooks. -/
inductive SeqItem where
  | task : ATask → SeqItem
  | sync : Nat → Bool → SeqItem
  | subtree : Nat → SeqItem → SeqItem
  | group : WorkflowPolicy → Option Nat → Option Nat → SeqItems → SeqItem

/-- An ordered list of children of a group, in declaration order. -/
inductive SeqItems where
  | nil : SeqItems
  | cons : SeqItem → SeqItems → SeqItems
end

mutual
/-- The statically computed count of leaf Task nodes: a task counts 1, a Sync counts
0, a nested TaskTree task counts as ONE opaque unit (its inner tasks are not
recursed into), and a group counts the sum over its children. -/
def taskCount : SeqItem → Nat
  | .task _ => 1
  | .sync _ _ => 0
  | .subtree _ _ => 1
  | .group _ _ _ cs => taskCountList cs

/-- Sum of `taskCount` over a child list. -/
def taskCountList : SeqItems → Nat
  | .nil => 0
  | .cons c cs => taskCount c + taskCountList cs
end

mutual
/-- Modelled from the spec: running one tree node to completion in sequential mode
(spec section 4.4; the driving code lives in the missing tasking.cpp), returning
the log, the node's success bit, and the progress credited to the node (one per
leaf task, resolved or skipped; a Sync credits none; a nested tree credits one
opaque unit).  A task logs its setup, then — under a `Continue` verdict — resolves,
logging done or error; a `StopWith...` verdict resolves the task on the spot.
A Sync runs inline, logging a single `Sync` entry, its boolean result (true for a
void function) standing as the child's outcome.  An empty group resolves as Done.
A nonempty group runs its children under its policy and then fires exactly one of
its done/error hooks. -/
def runItem : SeqItem → Log × Bool × Nat
  | .task t =>
    match t.action with
    | .Continue => ([(t.id, Handler.Setup), (t.id, res t)], t.success, 1)
    | .StopWithDone => ([(t.id, Handler.Setup)], true, 1)
    | .StopWithError => ([(t.id, Handler.Setup)], false, 1)
  | .sync i r => ([(i, Handler.Sync)], r, 0)
  | .subtree _ root =>
    ((runItem root).1, (runItem root).2.1, 1)
  | .group p dId eId cs =>
    match cs with
    | .nil => (hookLog dId eId true, true, 0)
    | .cons c rest =>
      ((runItems p (SeqItems.cons c rest) false false).1
          ++ hookLog dId eId (runItems p (SeqItems.cons c rest) false false).2.1,
        (runItems p (SeqItems.cons c rest) false false).2.1,
        (runItems p (SeqItems.cons c rest) false false).2.2)

/-- Run a group's children in declaration order under policy `p`, accumulating
whether any child succeeded/failed; an early policy stop skips the remaining
children, crediting their task count to progress without running them. -/
def runItems (p : WorkflowPolicy) : SeqItems → Bool → Bool → Log × Bool × Nat
  | .nil, aD, aE => ([], finalOutcome p aD aE, 0)
  | .cons c cs, aD, aE =>
    if stopsGroup p (runItem c).2.1 then
      ((runItem c).1, stopOutcome p (runItem c).2.1, (runItem c).2.2 + taskCountList cs)
    else
      ((runItem c).1 ++ (runItems p cs (aD || (runItem c).2.1) (aE || !(runItem c).2.1)).1,
        (runItems p cs (aD || (runItem c).2.1) (aE || !(runItem c).2.1)).2.1,
        (runItem c).2.2 + (runItems p cs (aD || (runItem c).2.1) (aE || !(runItem c).2.1)).2.2)
end

mutual
/-- Progress invariant: running any node credits exactly its static task count,
whether the node succeeds or fails. -/
theorem runItem_progress_eq : ∀ (it : SeqItem), (runItem it).2.2 = taskCount it
  | .task t => by
    cases ha : t.action <;> simp [runItem, taskCount, ha]
  | .sync i r => by
    simp [runItem, taskCount]
  | .subtree i root => by
    simp [runItem, taskCount]
  | .group p dId eId cs => by
    cases cs with
    | nil => simp [runItem, taskCount, taskCountList]
    | cons c rest =>
      simp only [runItem, taskCount]
      exact runItems_progress_eq p (SeqItems.cons c rest) false false

/-- Progress invariant for a child list: stopped-early or not, the credited progress
is the full static task count of the list. -/
theorem runItems_progress_eq : ∀ (p : WorkflowPolicy) (cs : SeqItems) (aD aE : Bool),
    (runItems p cs aD aE).2.2 = taskCountList cs
  | p, .nil, aD, aE => by
    simp [runItems, taskCountList]
  | p, .cons c cs, aD, aE => by
    simp only [runItems]
    split
    · simp [taskCountList, runItem_progress_eq c]
    · simp [taskCountList, runItem_progress_eq c,
        runItems_progress_eq p cs (aD || (runItem c).2.1) (aE || !(runItem c).2.1)]
end

/-- The inner tree of the test's `SequentialSubTree` row: a nested root group with
three succeeding tasks (ids 2, 3, 4). -/
def innerSubTreeDemo : SeqItem :=
  .group .StopOnError none none
    (.cons (.task ⟨2, .Continue, true, 0⟩)
      (.cons (.task ⟨3, .Continue, true, 0⟩)
        (.cons (.task ⟨4, .Continue, true, 0⟩) .nil)))

/-- The test's `SequentialSubTree` root: task 1, a nested TaskTree task wrapping
`innerSubTreeDemo`, task 5 — the suite records `taskCount` 3, not 5, because the
sub-tree is one opaque unit. -/
def subTreeDemo : SeqItem :=
  .group .StopOnError (some 0) none
    (.cons (.task ⟨1, .Continue, true, 0⟩)
      (.cons (.subtree 9 innerSubTreeDemo)
        (.cons (.task ⟨5, .Continue, true, 0⟩) .nil)))

/-- The test's `SequentialError` row: five tasks, the third failing, under the
default sequential StopOnError policy. -/
def seqErrorDemo : SeqItem :=
  .group .StopOnError none (some 0)
    (.cons (.task ⟨1, .Continue, true, 0⟩)
      (.cons (.task ⟨2, .Continue, true, 0⟩)
        (.cons (.task ⟨3, .Continue, false, 0⟩)
          (.cons (.task ⟨4, .Continue, true, 0⟩)
            (.cons (.task ⟨5, .Continue, true, 0⟩) .nil)))))

/-- C9: `taskCount` is the statically computed count of leaf Task nodes, a nested
TaskTree task counting as one opaque unit whatever its inner tree holds; and the
progress value at overall completion equals `taskCount` exactly, for every tree and
both outcomes — in particular the `SequentialSubTree` tree counts 3 (not 5), and the
failing `SequentialError` tree still reaches progress 5 with only three tasks run. -/
theorem taskCount_and_progress_accounting :
    (∀ it : SeqItem, (runItem it).2.2 = taskCount it)
    ∧ (∀ (i : Nat) (inner : SeqItem), taskCount (.subtree i inner) = 1)
    ∧ taskCount subTreeDemo = 3
    ∧ (runItem subTreeDemo).2.2 = 3
    ∧ (runItem seqErrorDemo).2.1 = false
    ∧ (runItem seqErrorDemo).2.2 = 5 :=
  ⟨runItem_progress_eq, fun _ _ => rfl, rfl, rfl, rfl, rfl⟩

/-- Concatenation of child lists. -/
def appendItems : SeqItems → SeqItems → SeqItems
  | .nil, ys => ys
  | .cons x xs, ys => .cons x (appendItems xs ys)

/-- Every item of the list runs and reports success. -/
def okAll : SeqItems → Prop
  | .nil => True
  | .cons c cs => (runItem c).2.1 = true ∧ okAll cs

/-- The concatenated logs of a list of children that all run to completion. -/
def logsOf : SeqItems → Log
  | .nil => []
  | .cons c cs => (runItem c).1 ++ logsOf cs

/-- Under StopOnError the `anyDone` accumulator never influences the result. -/
theorem runItems_stopOnError_aD_irrel : ∀ (cs : SeqItems) (aD aD' aE : Bool),
    runItems .StopOnError cs aD aE = runItems .StopOnError cs aD' aE
  | .nil, aD, aD', aE => by simp [runItems, finalOutcome]
  | .cons c cs, aD, aD', aE => by
    simp only [runItems]
    split
    · rfl
    · rw [runItems_stopOnError_aD_irrel cs (aD || (runItem c).2.1) (aD' || (runItem c).2.1)
        (aE || !(runItem c).2.1)]

/-- Running a StopOnError child list that starts with an all-succeeding segment:
the segment's logs accumulate in order and control proceeds into the remainder. -/
theorem runItems_okAll_segment : ∀ (pre : SeqItems), okAll pre →
    ∀ (rest : SeqItems) (aD aE : Bool),
      runItems .StopOnError (appendItems pre rest) aD aE
        = (logsOf pre ++ (runItems .StopOnError rest aD aE).1,
           (runItems .StopOnError rest aD aE).2.1,
           taskCountList pre + (runItems .StopOnError rest aD aE).2.2)
  | .nil, hok, rest, aD, aE => by
    simp [appendItems, logsOf, taskCountList]
  | .cons c pre', hok, rest, aD, aE => by
    obtain ⟨hc, hok'⟩ := hok
    show runItems .StopOnError (SeqItems.cons c (appendItems pre' rest)) aD aE = _
    simp only [runItems, hc]
    have hns : stopsGroup .StopOnError true = false := rfl
    rw [hns]
    simp only [Bool.false_eq_true, if_false]
    rw [runItems_stopOnError_aD_irrel (appendItems pre' rest) (aD || true) aD
      (aE || !true)]
    have haE : (aE || !true) = aE := by simp
    rw [haE]
    rw [runItems_okAll_segment pre' hok' rest aD aE]
    have hp := runItem_progress_eq c
    simp [logsOf, taskCountList, List.append_assoc, Prod.mk.injEq, hp, Nat.add_assoc]

/-- C10: A Sync element executes inline (one `Sync` log entry at its position),
contributes neither to `taskCount` nor to progress, and its boolean result stands as
the child's outcome (a void function counts as `true`, i.e. success); under the
default sequential StopOnError policy, a Sync returning `false` resolves as a
failure, so after an all-succeeding prefix the group stops there — the subsequent
siblings never run, the group fails and fires its group-error hook. -/
theorem sync_inline_and_failure_short_circuits (pre : SeqItems) (hok : okAll pre)
    (i : Nat) (post : SeqItems) (dId eId : Option Nat) :
    (∀ (j : Nat) (r : Bool),
      taskCount (.sync j r) = 0
      ∧ (runItem (.sync j r)).2.2 = 0
      ∧ (runItem (.sync j r)).1 = [(j, Handler.Sync)]
      ∧ (runItem (.sync j r)).2.1 = r)
    ∧ (runItem (.group .StopOnError dId eId
          (appendItems pre (.cons (.sync i false) post)))).2.1 = false
    ∧ (runItem (.group .StopOnError dId eId
          (appendItems pre (.cons (.sync i false) post)))).1
        = logsOf pre ++ [(i, Handler.Sync)] ++ hookLog dId eId false := by
  obtain ⟨h, t, heq⟩ : ∃ h t,
      appendItems pre (SeqItems.cons (SeqItem.sync i false) post) = SeqItems.cons h t := by
    cases pre
    · exact ⟨_, _, rfl⟩
    · exact ⟨_, _, rfl⟩
  have hrun : runItems .StopOnError
      (appendItems pre (SeqItems.cons (SeqItem.sync i false) post)) false false
      = (logsOf pre ++ [(i, Handler.Sync)], false, taskCountList pre + taskCountList post) := by
    rw [runItems_okAll_segment pre hok (SeqItems.cons (SeqItem.sync i false) post)
      false false]
    simp [runItems, runItem, stopsGroup, stopOutcome]
  refine ⟨fun j r => ⟨rfl, rfl, rfl, rfl⟩, ?_, ?_⟩
  · rw [heq]
    simp only [runItem]
    rw [← heq, hrun]
  · rw [heq]
    simp only [runItem]
    rw [← heq, hrun]

/-- Witness for C10: the test's `SyncAndAsyncError` row — a succeeding Sync (id 1)
and a succeeding task (id 2), then a Sync returning false (id 3); the group stops
there, never running task 4 or Sync 5, and fires the group-error hook. -/
theorem sync_inline_and_failure_short_circuits_witness :
    (∀ (j : Nat) (r : Bool),
      taskCount (.sync j r) = 0
      ∧ (runItem (.sync j r)).2.2 = 0
      ∧ (runItem (.sync j r)).1 = [(j, Handler.Sync)]
      ∧ (runItem (.sync j r)).2.1 = r)
    ∧ (runItem (.group .StopOnError none (some 0)
          (appendItems
            (SeqItems.cons (SeqItem.sync 1 true)
              (SeqItems.cons (SeqItem.task ⟨2, .Continue, true, 0⟩) SeqItems.nil))
            (.cons (.sync 3 false)
              (SeqItems.cons (SeqItem.task ⟨4, .Continue, true, 0⟩)
                (SeqItems.cons (SeqItem.sync 5 true) SeqItems.nil)))))).2.1 = false
    ∧ (runItem (.group .StopOnError none (some 0)
          (appendItems
            (SeqItems.cons (SeqItem.sync 1 true)
              (SeqItems.cons (SeqItem.task ⟨2, .Continue, true, 0⟩) SeqItems.nil))
            (.cons (.sync 3 false)
              (SeqItems.cons (SeqItem.task ⟨4, .Continue, true, 0⟩)
                (SeqItems.cons (SeqItem.sync 5 true) SeqItems.nil)))))).1
        = logsOf (SeqItems.cons (SeqItem.sync 1 true)
            (SeqItems.cons (SeqItem.task ⟨2, .Continue, true, 0⟩) SeqItems.nil))
          ++ [(3, Handler.Sync)] ++ hookLog none (some 0) false :=
  sync_inline_and_failure_short_circuits
    (SeqItems.cons (SeqItem.sync 1 true)
      (SeqItems.cons (SeqItem.task ⟨2, .Continue, true, 0⟩) SeqItems.nil))
    ⟨rfl, rfl, trivial⟩ 3
    (SeqItems.cons (SeqItem.task ⟨4, .Continue, true, 0⟩)
      (SeqItems.cons (SeqItem.sync 5 true) SeqItems.nil))
    none (some 0)

end Tasking
